import Mathlib

/-!
Verification of the commit-gatekeeping scripts of the Git_Good repository.

The repository contains two JavaScript hook scripts:
* a commit-msg style script (the larger variant) that reads the candidate
  commit message from a file path given as the process argument, and blocks
  the commit when the message is trivial (literal-phrase containment,
  anchored regex match, or trimmed length below 4);
* `scripts/check-commit.js` (the pre-commit variant) that reads the last
  commit message via `git log -1 --pretty=%B` and blocks only when the
  message matches a trivial phrase AND the staged diff looks trivial.

The embedding models JavaScript strings as Lean `String` / `List Char`,
with the ASCII fragment of `toLowerCase`, `trim` and the `\s` class (the
scripts only ever compare against ASCII pattern data).  Regular expressions
are embedded by a Brzozowski-derivative matcher over character predicates;
`regex.test`/`String.match` search semantics are expressed via prefix
matching over suffixes.  Subprocess calls (`execSync`) are modelled as
`Except Unit String` parameters: `.ok s` is the captured stdout, `.error ()`
is a non-zero exit, which in the source throws an uncaught exception
(modelled as the `Outcome.crashed` process outcome, distinct from a
deliberate `process.exit`).
-/

namespace GitGood

/-- ASCII model of the JavaScript whitespace class `\s` (and of the set
trimmed by `String.prototype.trim`): space, tab, line feed, vertical tab,
form feed, carriage return.  The non-ASCII members of the JS class are not
modelled. -/
def isWS (c : Char) : Bool :=
  c == ' ' || c == '\t' || c == '\n' || c == '\x0b' || c == '\x0c' || c == '\r'

/-- ASCII model of `String.prototype.toLowerCase` (`Char.toLower` lowers
exactly the ASCII letters `A`-`Z`). -/
def lowerL (l : List Char) : List Char :=
  l.map Char.toLower

/-- Model of `String.prototype.trim`: drop leading and trailing whitespace. -/
def trimL (l : List Char) : List Char :=
  ((l.dropWhile isWS).reverse.dropWhile isWS).reverse

/-- The `trim` operation on `String` values. -/
def trimS (s : String) : String :=
  String.mk (trimL s.toList)

/-- Model of `String.prototype.includes`: `needle` occurs contiguously
somewhere in `hay`. -/
def containsSub (hay needle : List Char) : Bool :=
  hay.tails.any (fun t => needle.isPrefixOf t)

/-- Process outcome of one script run: a deliberate `process.exit code`, or
a crash from an uncaught exception (in the source, `execSync` throwing on a
non-zero subprocess exit). -/
inductive Outcome where
  | exited (code : Nat) : Outcome
  | crashed : Outcome
deriving DecidableEq

/-- Regular expressions over character predicates, covering the constructs
used by the scripts (literals, classes such as `\s` `\w` `\d` `.`,
concatenation, alternation, `*` and the derived `+` `?` `{2,}`). -/
inductive RE where
  | emp : RE
  | eps : RE
  | pred : (Char → Bool) → RE
  | cat : RE → RE → RE
  | alt : RE → RE → RE
  | star : RE → RE

namespace RE

/-- Does the regex accept the empty string? -/
def nullable : RE → Bool
  | .emp => false
  | .eps => true
  | .pred _ => false
  | .cat a b => a.nullable && b.nullable
  | .alt a b => a.nullable || b.nullable
  | .star _ => true

/-- Brzozowski derivative by one character. -/
def deriv : RE → Char → RE
  | .emp, _ => .emp
  | .eps, _ => .emp
  | .pred p, c => if p c then .eps else .emp
  | .cat a b, c =>
      if a.nullable then .alt (.cat (a.deriv c) b) (b.deriv c)
      else .cat (a.deriv c) b
  | .alt a b, c => .alt (a.deriv c) (b.deriv c)
  | .star a, c => .cat (a.deriv c) (.star a)

/-- Full match: the regex matches the entire character list.  This is the
semantics of `regex.test(s)` for a pattern anchored as `^...$` (without the
`m` flag, `^` and `$` match only at the ends of the input). -/
def matchList : RE → List Char → Bool
  | r, [] => r.nullable
  | r, c :: cs => (r.deriv c).matchList cs

/-- Does the regex match some (possibly empty) leading segment of the list?
Building block for unanchored search. -/
def matchesPref : RE → List Char → Bool
  | r, [] => r.nullable
  | r, c :: cs => r.nullable || (r.deriv c).matchesPref cs

end RE

/-- Unanchored search, the semantics of `regex.test`/`String.match` for a
pattern with no anchors: some contiguous segment of the list matches. -/
def reSearch (r : RE) (l : List Char) : Bool :=
  l.tails.any (fun t => r.matchesPref t)

/-- Literal character sequence as a regex. -/
def litL : List Char → RE
  | [] => .eps
  | c :: cs => .cat (.pred (fun x => x == c)) (litL cs)

/-- Literal string as a regex. -/
def litS (s : String) : RE :=
  litL s.toList

/-- Optionality, `r?`. -/
def opt (r : RE) : RE :=
  .alt .eps r

/-- Repetition, `r+`. -/
def plus1 (r : RE) : RE :=
  .cat r (.star r)

/-- Right-nested concatenation of a list of regexes. -/
def cats : List RE → RE
  | [] => .eps
  | r :: rs => .cat r (cats rs)

/-- The class `\s`. -/
def wsRE : RE :=
  .pred isWS

/-- The class `\w` (`[A-Za-z0-9_]`). -/
def wordRE : RE :=
  .pred (fun c => c.isAlphanum || c == '_')

/-- The class `\d`. -/
def digitRE : RE :=
  .pred Char.isDigit

/-- The class `[a-z]` applied to case-folded input (the source pattern
carries the `i` flag, so after ASCII lowering it is any ASCII letter). -/
def lowAlphaRE : RE :=
  .pred (fun c => 'a' ≤ c && c ≤ 'z')

/-- JS `.` without the `s` flag: any character except a line terminator
(`\n`, `\r`; the two non-ASCII JS line terminators are not modelled). -/
def dotRE : RE :=
  .pred (fun c => !(c == '\n') && !(c == '\r'))

/-! ## The commit-msg hook variant (the larger script)

Embeds the script that reads the candidate commit message from the file
named by `process.argv[2]`. -/

namespace CheckMsg

/-- The literal trivial-phrase list `trivialPatterns` of the commit-msg
variant, in source order. -/
def trivialPatterns : List String :=
  [ "fix typo", "typo", "fixed typo", "correct typo", "spelling",
    "correct spelling", "fixed spelling", "grammar", "fix grammar",
    "minor", "minor update", "minor fix", "minor change", "small fix",
    "small change", "tiny fix", "quick fix", "hotfix typo",
    "format", "formatting", "fix format", "adjust format", "fix formatting",
    "whitespace", "refactor whitespace", "fix whitespace", "indentation",
    "fix indentation", "lint", "linting", "fix lint", "prettier",
    "eslint fix",
    "update docs", "docs update", "readme update", "update readme",
    "comment", "add comment", "fix comment", "update comment",
    "cleanup", "clean up", "tidy", "tidy up", "cosmetic", "nit", "nitpick",
    "oops", "wip", "temp", "test commit", "remove console.log",
    "remove log", "remove debug", "fix import", "unused import",
    "remove unused" ]

/-- The regex list `trivialRegexPatterns` of the commit-msg variant, in
source order.  Every pattern is anchored `^...$`; the `i` flag is modelled
by matching the ASCII-lowered input against lowercase pattern data (the
three patterns without the flag, `^\.+$`, `^-+$` and `^\d+$`, are untouched
by case folding, and `[a-z]` with the flag becomes `[a-z]` on lowered
input). -/
def trivialRegexPatterns : List RE :=
  [ cats [litS "fix", opt (RE.alt (litS "ed") (RE.alt (litS "es") (litS "ing"))),
      RE.star wsRE, opt (RE.cat (litS "a") (plus1 wsRE)), litS "typo",
      opt (litS "s")],
    RE.cat (litS "typo") (opt (litS "s")),
    RE.cat (litS "minor") (opt (RE.cat (plus1 wsRE) (plus1 wordRE))),
    RE.cat (litS "small") (opt (RE.cat (plus1 wsRE) (plus1 wordRE))),
    RE.cat (litS "quick") (opt (RE.cat (plus1 wsRE) (plus1 wordRE))),
    litS "wip",
    litS "temp",
    litS "test",
    plus1 (RE.pred (fun c => c == '.')),
    plus1 (RE.pred (fun c => c == '-')),
    RE.cat (litS "update") (opt (RE.alt (litS "d") (litS "s"))),
    RE.cat (litS "fix") (opt (RE.alt (litS "ed") (litS "es"))),
    RE.cat (litS "change") (opt (RE.alt (litS "d") (litS "s"))),
    RE.cat (litS "edit") (opt (RE.alt (litS "ed") (litS "s"))),
    RE.cat (litS "oops") (opt (litS "!")),
    litS "fmt",
    RE.cat (litS "lint") (opt (litS "ing")),
    litS "cleanup",
    litS "refactor",
    litS "stuff",
    litS "things",
    litS "misc",
    lowAlphaRE,
    plus1 digitRE ]

/-- Source expression
`trivialPatterns.some(pattern => commitMessage.toLowerCase().includes(pattern.toLowerCase()))`. -/
def isTrivialCommitMessage (commitMessage : String) : Bool :=
  trivialPatterns.any (fun p => containsSub (lowerL commitMessage.toList) (lowerL p.toList))

/-- Source expression
`trivialRegexPatterns.some(regex => regex.test(commitMessage.trim()))`
(each pattern is fully anchored; case-insensitivity is modelled by ASCII
lowering). -/
def matchesTrivialRegex (commitMessage : String) : Bool :=
  trivialRegexPatterns.any (fun r => r.matchList (lowerL (trimL commitMessage.toList)))

/-- Source expression `commitMessage.trim().length < 4`. -/
def isTooShort (commitMessage : String) : Bool :=
  (trimL commitMessage.toList).length < 4

/-- Function `getCommitMessage`: read and trim the file named by `process.argv[2]`
when the argument is truthy and the file exists, else return the empty
string.  `fsRead p = some content` models an existing readable file. -/
def getCommitMessage (arg : Option String) (fsRead : String → Option String) : String :=
  match arg with
  | none => ""
  | some p =>
      if p = "" then ""
      else
        match fsRead p with
        | some content => trimS content
        | none => ""

/-- Function `main` of the commit-msg variant.  `gitDiff` is the result of
`execSync("git diff --cached")`: on a non-zero subprocess exit the source
throws out of `getStagedChanges` with no handler, so the run crashes even
though the captured diff is never used afterwards.  Otherwise an empty
message skips (exit 0), a trivial message blocks (exit 1), anything else
is allowed (exit 0). -/
def mainRun (arg : Option String) (fsRead : String → Option String)
    (gitDiff : Except Unit String) : Outcome :=
  let commitMessage := getCommitMessage arg fsRead
  match gitDiff with
  | .error _ => .crashed
  | .ok _ =>
      if commitMessage = "" then .exited 0
      else if isTrivialCommitMessage commitMessage || matchesTrivialRegex commitMessage
          || isTooShort commitMessage then .exited 1
      else .exited 0

end CheckMsg

/-- Classification outcome of the spec's Triviality Classifier. -/
inductive ClassificationResult where
  | allowed : ClassificationResult
  | blocked (reason : String) : ClassificationResult
deriving DecidableEq

/-- Is the result a block? -/
def ClassificationResult.isBlocked : ClassificationResult → Bool
  | .allowed => false
  | .blocked _ => true

namespace CheckMsg

/-- Modelled from the spec: the source script collapses its three
predicates into one generic block (a single error text and `exit 1`) and
never names the rule that fired, so the `reason` tags and the first-match
rule order (length, then substring, then pattern) are taken from spec
section 4.3.  The three predicates themselves are the source functions
above. -/
def classify (msg : String) : ClassificationResult :=
  if isTooShort msg then .blocked "too short"
  else if isTrivialCommitMessage msg then .blocked "trivial phrase"
  else if matchesTrivialRegex msg then .blocked "trivial pattern"
  else .allowed

end CheckMsg

/-! ## The pre-commit variant (`scripts/check-commit.js`) -/

namespace CheckCommit

/-- The literal trivial-phrase list `trivialPatterns` of
`scripts/check-commit.js`, in source order. -/
def trivialPatterns : List String :=
  [ "fix typo", "minor update", "update docs", "correct spelling",
    "adjust format", "refactor whitespace" ]

/-- Source expression
`trivialPatterns.some(pattern => commitMessage.toLowerCase().includes(pattern))`
(this variant does not lower the pattern; the entries are lowercase
already). -/
def isTrivialCommitMessage (commitMessage : String) : Bool :=
  trivialPatterns.any (fun p => containsSub (lowerL commitMessage.toList) p.toList)

/-- The second alternative of the `isTrivialChange` regex,
`^\+.*\.(md|txt|rst)$`: anchored at both ends, so (without the `m` flag) it
can match only against the whole input. -/
def docAddRE : RE :=
  cats [RE.pred (fun c => c == '+'), RE.star dotRE,
    RE.pred (fun c => c == '.'),
    RE.alt (litS "md") (RE.alt (litS "txt") (litS "rst"))]

/-- The first alternative of the `isTrivialChange` regex, `\s{2,}`. -/
def wsRunRE : RE :=
  cats [wsRE, wsRE, RE.star wsRE]

/-- Whole-input match of the anchored documentation alternative. -/
def docAltMatch (l : List Char) : Bool :=
  docAddRE.matchList l

/-- Source expression `diff.match(/(\s{2,}|^\+.*\.(md|txt|rst)$)/)` as a Boolean: the first
alternative is unanchored, so it is an infix search; the second is anchored
`^...$` with no `m` flag, so it succeeds only as a whole-input match. -/
def isTrivialChange (diff : String) : Bool :=
  reSearch wsRunRE diff.toList || docAltMatch diff.toList

/-- The blocking condition of `main`:
`isTrivialCommitMessage && isTrivialChange(diff)`. -/
def blockTrivial (commitMessage diff : String) : Bool :=
  isTrivialCommitMessage commitMessage && isTrivialChange diff

/-- Function `main` of `scripts/check-commit.js`.  `gitLog` is the result of
`execSync("git log -1 --pretty=%B")` (this is `getLastCommitMessage`;
in a repository with zero commits git exits non-zero, the call throws and
nothing catches it) and `gitDiff` the result of
`execSync("git diff --cached")`; both outputs are trimmed.  The commit is
blocked (exit 1) only when the message matches a trivial phrase and the
staged diff looks trivial. -/
def mainRun (gitLog gitDiff : Except Unit String) : Outcome :=
  match gitLog with
  | .error _ => .crashed
  | .ok m =>
      match gitDiff with
      | .error _ => .crashed
      | .ok d =>
          if blockTrivial (trimS m) (trimS d) then .exited 1
          else .exited 0

end CheckCommit

/-- All character predicates occurring in the regex are contained in `P`:
every character that any `pred` leaf accepts satisfies `P`. -/
def predsOK (P : Char → Bool) : RE → Prop
  | .emp => True
  | .eps => True
  | .pred p => ∀ c, p c = true → P c = true
  | .cat a b => predsOK P a ∧ predsOK P b
  | .alt a b => predsOK P a ∧ predsOK P b
  | .star a => predsOK P a

/-! ## Lemmas about the derivative matcher -/

theorem matchList_emp (l : List Char) : RE.emp.matchList l = false := by
  induction l with
  | nil => rfl
  | cons c cs ih => simpa [RE.matchList, RE.deriv] using ih

theorem matchList_alt (a b : RE) (l : List Char) :
    (RE.alt a b).matchList l = (a.matchList l || b.matchList l) := by
  induction l generalizing a b with
  | nil => rfl
  | cons c cs ih => simpa [RE.matchList, RE.deriv] using ih (a.deriv c) (b.deriv c)

theorem matchList_cat_of_left_dead (b : RE) :
    ∀ (l : List Char) (a : RE), (∀ l2, a.matchList l2 = false) →
      (RE.cat a b).matchList l = false := by
  intro l
  induction l with
  | nil =>
    intro a ha
    have h0 := ha []
    simp only [RE.matchList] at h0
    simp [RE.matchList, RE.nullable, h0]
  | cons c cs ih =>
    intro a ha
    have h0 := ha []
    simp only [RE.matchList] at h0
    simp only [RE.matchList, RE.deriv, h0, if_false, Bool.false_eq_true]
    exact ih (a.deriv c) (fun l2 => ha (c :: l2))

theorem predsOK_deriv {P : Char → Bool} (c : Char) :
    ∀ r : RE, predsOK P r → predsOK P (r.deriv c) := by
  intro r
  induction r with
  | emp => intro _; trivial
  | eps => intro _; trivial
  | pred p =>
    intro _
    simp only [RE.deriv]
    split
    · trivial
    · trivial
  | cat a b iha ihb =>
    intro h
    obtain ⟨ha, hb⟩ := h
    simp only [RE.deriv]
    split
    · exact ⟨⟨iha ha, hb⟩, ihb hb⟩
    · exact ⟨iha ha, hb⟩
  | alt a b iha ihb =>
    intro h
    obtain ⟨ha, hb⟩ := h
    exact ⟨iha ha, ihb hb⟩
  | star a iha =>
    intro h
    exact ⟨iha h, h⟩

theorem matchList_deriv_dead {P : Char → Bool} {c : Char} (hc : P c = false) :
    ∀ r : RE, predsOK P r → ∀ l, (r.deriv c).matchList l = false := by
  intro r
  induction r with
  | emp => intro _ l; exact matchList_emp l
  | eps => intro _ l; exact matchList_emp l
  | pred p =>
    intro hp l
    have hpc : p c = false := by
      cases hx : p c
      · rfl
      · rw [hp c hx] at hc
        exact absurd hc (by simp)
    simp only [RE.deriv, hpc, if_false]
    exact matchList_emp l
  | cat a b iha ihb =>
    intro h l
    obtain ⟨ha, hb⟩ := h
    simp only [RE.deriv]
    split
    · rw [matchList_alt, matchList_cat_of_left_dead b l (a.deriv c) (iha ha),
        ihb hb l]
      rfl
    · exact matchList_cat_of_left_dead b l (a.deriv c) (iha ha)
  | alt a b iha ihb =>
    intro h l
    obtain ⟨ha, hb⟩ := h
    simp only [RE.deriv]
    rw [matchList_alt, iha ha l, ihb hb l]
    rfl
  | star a iha =>
    intro h l
    simp only [RE.deriv]
    exact matchList_cat_of_left_dead (RE.star a) l (a.deriv c) (iha h)

/-- Soundness of `predsOK`: a full match forces every character of the
input into `P`. -/
theorem all_of_matchList {P : Char → Bool} :
    ∀ (l : List Char) (r : RE), predsOK P r → r.matchList l = true →
      l.all P = true := by
  intro l
  induction l with
  | nil => intro r _ _; rfl
  | cons c cs ih =>
    intro r hok hm
    simp only [RE.matchList] at hm
    have hPc : P c = true := by
      cases hx : P c
      · rw [matchList_deriv_dead hx r hok cs] at hm
        exact absurd hm (by simp)
      · rfl
    have hcs := ih (r.deriv c) (predsOK_deriv c r hok) hm
    simp [List.all_cons, hPc, hcs]

/-- A concatenation headed by a single-character predicate can only match a
list whose first character satisfies that predicate. -/
theorem head_of_matchList_cat_pred {p : Char → Bool} {b : RE} :
    ∀ l : List Char, (RE.cat (RE.pred p) b).matchList l = true →
      ∃ c cs, l = c :: cs ∧ p c = true := by
  intro l hm
  cases l with
  | nil => simp [RE.matchList, RE.nullable] at hm
  | cons c cs =>
    refine ⟨c, cs, rfl, ?_⟩
    cases hpc : p c
    · exfalso
      simp only [RE.matchList, RE.deriv, RE.nullable, hpc, if_false,
        Bool.false_eq_true] at hm
      rw [matchList_cat_of_left_dead b cs RE.emp matchList_emp] at hm
      exact absurd hm (by simp)
    · rfl

theorem matchesPref_of_nullable {r : RE} (h : r.nullable = true) :
    ∀ l, r.matchesPref l = true := by
  intro l
  cases l with
  | nil => simpa [RE.matchesPref] using h
  | cons c cs => simp [RE.matchesPref, h]

/-- Two adjacent whitespace characters make `\s{2,}` match a leading
segment. -/
theorem wsRun_matchesPref {c1 c2 : Char} (h1 : isWS c1 = true)
    (h2 : isWS c2 = true) (suf : List Char) :
    CheckCommit.wsRunRE.matchesPref (c1 :: c2 :: suf) = true := by
  simp only [CheckCommit.wsRunRE, cats, wsRE, RE.matchesPref, RE.deriv,
    RE.nullable, h1, h2, if_true, if_false, Bool.false_or, Bool.or_false,
    Bool.and_true, Bool.true_and, Bool.and_false, Bool.false_and]
  apply matchesPref_of_nullable
  rfl

theorem predsOK_litL (P : Char → Bool) :
    ∀ l : List Char, l.all P = true → predsOK P (litL l) := by
  intro l
  induction l with
  | nil => intro _; trivial
  | cons c cs ih =>
    intro h
    rw [List.all_cons, Bool.and_eq_true] at h
    refine ⟨?_, ih h.2⟩
    intro x hx
    rw [eq_of_beq hx]
    exact h.1

/-- Every predicate of the documentation-addition regex rejects the newline
character. -/
theorem docAddRE_predsOK : predsOK (fun c => !(c == '\n')) CheckCommit.docAddRE := by
  unfold CheckCommit.docAddRE cats
  refine ⟨?_, ?_, ?_, ⟨?_, ?_, ?_⟩, trivial⟩
  · intro c hc
    rw [eq_of_beq hc]
    decide
  · intro c hc
    rw [Bool.and_eq_true] at hc
    exact hc.1
  · intro c hc
    rw [eq_of_beq hc]
    decide
  · exact predsOK_litL _ _ (by decide)
  · exact predsOK_litL _ _ (by decide)
  · exact predsOK_litL _ _ (by decide)

/-! ## Lemmas about substring containment and the pattern data -/

theorem containsSub_of_infix {needle hay : List Char} (h : needle <:+: hay) :
    containsSub hay needle = true := by
  obtain ⟨s, t, hst⟩ := h
  unfold containsSub
  rw [List.any_eq_true]
  refine ⟨needle ++ t, ?_, ?_⟩
  · rw [List.mem_tails]
    exact ⟨s, by rw [← hst]; simp⟩
  · rw [List.isPrefixOf_iff_prefix]
    exact List.prefix_append needle t

/-- The six literal phrases of the pre-commit variant all appear in the
phrase list of the commit-msg variant. -/
theorem checkCommit_patterns_subset :
    ∀ p ∈ CheckCommit.trivialPatterns, p ∈ CheckMsg.trivialPatterns := by
  decide

/-- The six literal phrases of the pre-commit variant are already
lowercase. -/
theorem checkCommit_patterns_lower :
    ∀ p ∈ CheckCommit.trivialPatterns, lowerL p.toList = p.toList := by
  decide

/-- The literal phrases of the commit-msg variant are already lowercase. -/
theorem checkMsg_patterns_lower :
    ∀ p ∈ CheckMsg.trivialPatterns, lowerL p.toList = p.toList := by
  decide

/-- A message flagged by the pre-commit phrase list is flagged by the
commit-msg phrase list as well. -/
theorem trivial6_to_trivial60 {s : String}
    (h : CheckCommit.isTrivialCommitMessage s = true) :
    CheckMsg.isTrivialCommitMessage s = true := by
  unfold CheckCommit.isTrivialCommitMessage at h
  rw [List.any_eq_true] at h
  obtain ⟨p, hp, hc⟩ := h
  unfold CheckMsg.isTrivialCommitMessage
  rw [List.any_eq_true]
  refine ⟨p, checkCommit_patterns_subset p hp, ?_⟩
  rw [checkCommit_patterns_lower p hp]
  exact hc

/-- The empty message matches no phrase of the pre-commit list. -/
theorem ne_empty_of_trivial6 {s : String}
    (h : CheckCommit.isTrivialCommitMessage s = true) : s ≠ "" := by
  intro he
  subst he
  exact absurd h (by decide)

/-- The spec-modelled classifier blocks exactly when the disjunction of the
three source predicates (the blocking condition of the source `main`)
holds. -/
theorem classify_isBlocked_iff (msg : String) :
    (CheckMsg.classify msg).isBlocked =
      (CheckMsg.isTrivialCommitMessage msg || CheckMsg.matchesTrivialRegex msg
        || CheckMsg.isTooShort msg) := by
  unfold CheckMsg.classify
  cases h1 : CheckMsg.isTooShort msg <;>
    cases h2 : CheckMsg.isTrivialCommitMessage msg <;>
      cases h3 : CheckMsg.matchesTrivialRegex msg <;>
        simp [h1, h2, h3, ClassificationResult.isBlocked]

/-! ## Claim theorems -/

/-- C1 (counterexample): the message `"wip"` is a literal entry of the
phrase set (so its lower-cased text contains an entry), yet the classifier
blocks it with reason `"too short"` — the length rule fires first — and not
with reason `"trivial phrase"` as the claim states. -/
theorem c1_reason_counterexample :
    CheckMsg.isTrivialCommitMessage "wip" = true
    ∧ CheckMsg.classify "wip" = ClassificationResult.blocked "too short"
    ∧ CheckMsg.classify "wip" ≠ ClassificationResult.blocked "trivial phrase" := by
  decide

/-- C1 (amended): every commit message whose lower-cased text contains a
literal entry of the trivial-phrase set is Blocked (in particular every
message case-insensitively equal to such an entry); the reason is
`"trivial phrase"` whenever the trimmed message is not shorter than 4
characters, while a shorter message is blocked with reason `"too short"`
by the length rule, which fires first. -/
theorem c1_trivial_phrase_blocks (msg : String)
    (h : CheckMsg.isTrivialCommitMessage msg = true) :
    (CheckMsg.classify msg).isBlocked = true
    ∧ (CheckMsg.isTooShort msg = false →
        CheckMsg.classify msg = ClassificationResult.blocked "trivial phrase") := by
  unfold CheckMsg.classify
  cases h1 : CheckMsg.isTooShort msg
  · simp [h1, h, ClassificationResult.isBlocked]
  · simp [h1, h, ClassificationResult.isBlocked]

/-- C1 witness: a concrete phrase-containing message of adequate length is
blocked with reason `"trivial phrase"`. -/
theorem c1_trivial_phrase_blocks_witness :
    CheckMsg.classify "Fix Typo in the docs"
      = ClassificationResult.blocked "trivial phrase" :=
  (c1_trivial_phrase_blocks "Fix Typo in the docs" (by decide)).2 (by decide)

/-- C2: every commit message whose trimmed length is fewer than 4
characters is blocked with reason `"too short"`, regardless of content
(the length rule is evaluated first). -/
theorem c2_too_short_blocked (msg : String)
    (h : (trimL msg.toList).length < 4) :
    CheckMsg.classify msg = ClassificationResult.blocked "too short" := by
  have ht : CheckMsg.isTooShort msg = true := by
    unfold CheckMsg.isTooShort
    exact decide_eq_true h
  unfold CheckMsg.classify
  simp [ht]

/-- C2 witness at the message `"fix"` (trimmed length 3). -/
theorem c2_too_short_blocked_witness :
    CheckMsg.classify "fix" = ClassificationResult.blocked "too short" :=
  c2_too_short_blocked "fix" (by decide)

/-- C3: a message that none of the three rules matches (not too short, no
trivial phrase contained, no trivial regex fully matched) is Allowed. -/
theorem c3_no_rule_allowed (msg : String)
    (h1 : CheckMsg.isTooShort msg = false)
    (h2 : CheckMsg.isTrivialCommitMessage msg = false)
    (h3 : CheckMsg.matchesTrivialRegex msg = false) :
    CheckMsg.classify msg = ClassificationResult.allowed := by
  unfold CheckMsg.classify
  simp [h1, h2, h3]

/-- C3 witness: the spec example message is Allowed. -/
theorem c3_no_rule_allowed_witness :
    CheckMsg.classify "Implement OAuth2 token refresh with retry and backoff"
      = ClassificationResult.allowed :=
  c3_no_rule_allowed "Implement OAuth2 token refresh with retry and backoff"
    (by decide) (by decide) (by decide)

/-- C4: (i) the substring rule depends only on the lower-cased message and
(ii) the regex rule only on the lower-cased trimmed message (matching is
case-insensitive throughout); (iii) the substring rule is unanchored — any
phrase entry occurring anywhere in the message fires it; (iv) the regex
rule matches the entire trimmed message (`"  UPDATE  "` fires), and (v) a
pattern occurring merely as a proper substring does not fire it. -/
theorem c4_matching_modes (m₁ m₂ p pre suf : String)
    (hp : p ∈ CheckMsg.trivialPatterns)
    (hlow : lowerL m₁.toList = lowerL m₂.toList)
    (htrim : lowerL (trimL m₁.toList) = lowerL (trimL m₂.toList)) :
    (CheckMsg.isTrivialCommitMessage m₁ = CheckMsg.isTrivialCommitMessage m₂)
    ∧ (CheckMsg.matchesTrivialRegex m₁ = CheckMsg.matchesTrivialRegex m₂)
    ∧ CheckMsg.isTrivialCommitMessage (pre ++ p ++ suf) = true
    ∧ CheckMsg.matchesTrivialRegex "  UPDATE  " = true
    ∧ CheckMsg.matchesTrivialRegex "an update to the build" = false := by
  refine ⟨?_, ?_, ?_, by decide, by decide⟩
  · unfold CheckMsg.isTrivialCommitMessage
    rw [hlow]
  · unfold CheckMsg.matchesTrivialRegex
    rw [htrim]
  · unfold CheckMsg.isTrivialCommitMessage
    rw [List.any_eq_true]
    refine ⟨p, hp, ?_⟩
    rw [checkMsg_patterns_lower p hp]
    apply containsSub_of_infix
    refine ⟨lowerL pre.toList, lowerL suf.toList, ?_⟩
    have he : (pre ++ p ++ suf).toList = pre.toList ++ p.toList ++ suf.toList := by
      simp [String.toList, String.data_append]
    rw [he]
    have hlp : lowerL p.toList = p.toList := checkMsg_patterns_lower p hp
    calc lowerL pre.toList ++ p.toList ++ lowerL suf.toList
        = lowerL pre.toList ++ lowerL p.toList ++ lowerL suf.toList := by
          rw [hlp]
      _ = lowerL (pre.toList ++ p.toList ++ suf.toList) := by
          simp [lowerL]

/-- C4 witness at concrete case variants and a concrete embedded phrase. -/
theorem c4_matching_modes_witness :
    (CheckMsg.isTrivialCommitMessage "WIP it" = CheckMsg.isTrivialCommitMessage "wip IT")
    ∧ (CheckMsg.matchesTrivialRegex "WIP it" = CheckMsg.matchesTrivialRegex "wip IT")
    ∧ CheckMsg.isTrivialCommitMessage ("a " ++ "wip" ++ "!") = true
    ∧ CheckMsg.matchesTrivialRegex "  UPDATE  " = true
    ∧ CheckMsg.matchesTrivialRegex "an update to the build" = false :=
  c4_matching_modes "WIP it" "wip IT" "wip" "a " "!" (by decide) (by decide)
    (by decide)

/-- C5 (code behaviour at the failing input): in the commit-msg variant the
staged diff is never used, yet a failing `git diff --cached` subprocess
makes `getStagedChanges` throw with no handler, so the run crashes instead
of degrading to allow — even with a perfectly good message.  (The
message-unavailable condition alone, second conjunct, does degrade to a
skip with exit 0.) -/
theorem c5_diff_failure_crashes :
    CheckMsg.mainRun (some "COMMIT_EDITMSG")
      (fun _ => some "Implement a real feature") (Except.error ())
      = Outcome.crashed
    ∧ CheckMsg.mainRun none (fun _ => none) (Except.ok "") = Outcome.exited 0 := by
  exact ⟨rfl, rfl⟩

/-- C6 (code behaviour at the failing input): in the variant that retrieves
the last commit message, a repository with zero commits makes
`git log -1 --pretty=%B` exit non-zero, `execSync` throws out of
`getLastCommitMessage` with no handler, and the run crashes instead of
reporting skip with exit 0. -/
theorem c6_empty_repo_crashes :
    CheckCommit.mainRun (Except.error ()) (Except.ok "") = Outcome.crashed := by
  rfl

/-- C7: for a message matching a trivial phrase accompanied by a staged
diff that the diff-triviality regex does not match (no whitespace runs, no
single-line documentation addition), the variant implementing the
diff-corroboration rule allows (exit 0) while the variant without the rule
blocks (exit 1) on the same message. -/
theorem c7_diff_corroboration (msg diff : String)
    (hmsg : CheckCommit.isTrivialCommitMessage (trimS msg) = true)
    (hdiff : CheckCommit.isTrivialChange (trimS diff) = false) :
    CheckCommit.mainRun (Except.ok msg) (Except.ok diff) = Outcome.exited 0
    ∧ CheckMsg.mainRun (some "COMMIT_EDITMSG") (fun _ => some msg)
        (Except.ok diff) = Outcome.exited 1 := by
  constructor
  · unfold CheckCommit.mainRun CheckCommit.blockTrivial
    simp [hdiff]
  · have h60 : CheckMsg.isTrivialCommitMessage (trimS msg) = true :=
      trivial6_to_trivial60 hmsg
    have hne : trimS msg ≠ "" := ne_empty_of_trivial6 hmsg
    unfold CheckMsg.mainRun CheckMsg.getCommitMessage
    simp [hne, h60]

/-- C7 witness: message `"fix typo"` with the one-line code diff `"+x=1;"`. -/
theorem c7_diff_corroboration_witness :
    CheckCommit.mainRun (Except.ok "fix typo") (Except.ok "+x=1;")
      = Outcome.exited 0
    ∧ CheckMsg.mainRun (some "COMMIT_EDITMSG") (fun _ => some "fix typo")
        (Except.ok "+x=1;") = Outcome.exited 1 :=
  c7_diff_corroboration "fix typo" "+x=1;" (by decide) (by decide)

/-- C8: the classification functions of both variants are deterministic —
identical inputs give identical results.  (Both are total Lean functions of
the message and diff alone, so the embedding is side-effect-free by
construction; the source predicates read only their arguments and the
constant pattern arrays.) -/
theorem c8_deterministic (m₁ m₂ d₁ d₂ : String) (hm : m₁ = m₂) (hd : d₁ = d₂) :
    CheckMsg.classify m₁ = CheckMsg.classify m₂
    ∧ CheckCommit.blockTrivial m₁ d₁ = CheckCommit.blockTrivial m₂ d₂ := by
  subst hm
  subst hd
  exact ⟨rfl, rfl⟩

/-- C8 witness at concrete repeated inputs. -/
theorem c8_deterministic_witness :
    CheckMsg.classify "wip" = CheckMsg.classify "wip"
    ∧ CheckCommit.blockTrivial "wip" " " = CheckCommit.blockTrivial "wip" " " :=
  c8_deterministic "wip" "wip" " " " " rfl rfl

/-- C9: (i) any two consecutive whitespace characters anywhere in the diff
text (for instance a newline followed by an indented or context line) make
`isTrivialChange` report a trivial change; (ii) the documentation
alternative `^\+.*\.(md|txt|rst)$` can match only a diff text that contains
no newline at all — the whole (trimmed) diff must be its first line — and
whose first character is `+`; a two-line diff of added `.md` paths fails it
(no `m` flag), as does a single added non-documentation path. -/
theorem c9_isTrivialChange_semantics (pre suf : List Char) (c₁ c₂ : Char)
    (d : String) (h1 : isWS c₁ = true) (h2 : isWS c₂ = true)
    (hdoc : CheckCommit.docAltMatch d.toList = true) :
    CheckCommit.isTrivialChange (String.mk (pre ++ c₁ :: c₂ :: suf)) = true
    ∧ d.toList.all (fun c => !(c == '\n')) = true
    ∧ (∃ cs, d.toList = '+' :: cs)
    ∧ CheckCommit.isTrivialChange "+README.md" = true
    ∧ CheckCommit.isTrivialChange "+a.md\n+b.md" = false
    ∧ CheckCommit.isTrivialChange "+style.css" = false := by
  refine ⟨?_, ?_, ?_, by decide, by decide, by decide⟩
  · have hs : reSearch CheckCommit.wsRunRE (pre ++ c₁ :: c₂ :: suf) = true := by
      unfold reSearch
      rw [List.any_eq_true]
      exact ⟨c₁ :: c₂ :: suf, (List.mem_tails _ _).mpr ⟨pre, rfl⟩,
        wsRun_matchesPref h1 h2 suf⟩
    unfold CheckCommit.isTrivialChange
    simp [hs]
  · exact all_of_matchList d.toList CheckCommit.docAddRE docAddRE_predsOK hdoc
  · obtain ⟨c, cs, hl, hc⟩ :=
      head_of_matchList_cat_pred d.toList hdoc
    exact ⟨cs, by rw [hl, eq_of_beq hc]⟩

/-- C9 witness: a diff with a newline-plus-space run, and the single added
documentation line `"+README.md"`. -/
theorem c9_isTrivialChange_semantics_witness :
    CheckCommit.isTrivialChange
        (String.mk ("+line1".toList ++ '\n' :: ' ' :: "context".toList)) = true
    ∧ ("+README.md" : String).toList.all (fun c => !(c == '\n')) = true
    ∧ (∃ cs, ("+README.md" : String).toList = '+' :: cs)
    ∧ CheckCommit.isTrivialChange "+README.md" = true
    ∧ CheckCommit.isTrivialChange "+a.md\n+b.md" = false
    ∧ CheckCommit.isTrivialChange "+style.css" = false :=
  c9_isTrivialChange_semantics "+line1".toList "context".toList '\n' ' '
    "+README.md" (by decide) (by decide) (by decide)

/-- C10: when the path argument is supplied but the file does not exist,
`getCommitMessage` falls through to the empty message and the run reports
skip with exit 0 before any classification (provided, as for any run of
this script, that the staged-diff subprocess succeeds). -/
theorem c10_missing_file_skips (p : String) (fsRead : String → Option String)
    (d : String) (h : fsRead p = none) :
    CheckMsg.mainRun (some p) fsRead (Except.ok d) = Outcome.exited 0 := by
  unfold CheckMsg.mainRun CheckMsg.getCommitMessage
  by_cases hp : p = ""
  · simp [hp]
  · simp [hp, h]

/-- C10 witness at a concrete missing path. -/
theorem c10_missing_file_skips_witness :
    CheckMsg.mainRun (some "COMMIT_EDITMSG") (fun _ => none) (Except.ok "")
      = Outcome.exited 0 :=
  c10_missing_file_skips "COMMIT_EDITMSG" (fun _ => none) "" rfl

end GitGood
